import Mathlib

/-!
Verification of the filing-selection and exhibit-triage policy of the
stock-docs repository (a service that packages a company's regulatory
filings and exhibits into an archive).

The TypeScript source is shallowly embedded:

* `src/lib/sec.ts` (data model, form-code predicates, the filing selector
  `pickFilingsPackWithReasons`, the index-table row extractor, `parseSize`,
  `toCsvLine`);
* the pack-building route handler (query-parameter validation and the
  per-exhibit triage/download loop with its budget caps and audit rows).

Conventions of the embedding:

* JavaScript `Date` values are represented by their millisecond timestamps
  (`Int`).  Date-string parsing (`new Date(s)`) is kept abstract as a
  parameter `toMs : String → Int`, and the current instant (`new Date()`)
  as a parameter `nowMs : Int`; every comparison the source performs on
  `Date` objects is a comparison of these timestamps.
* JavaScript numbers in the query-parameter validation are rationals (`ℚ`);
  `NaN` is `none`.  Byte counts (`Buffer.byteLength`, the cumulative
  `exhibitsBytesUsed`) are natural numbers.
* I/O is represented by oracles: the exhibit download is a function
  `ExhibitDoc → Option ℕ` returning the downloaded byte length, `none`
  meaning the download failed.
-/

namespace StockDocs

/-- Structure `Filing` from `src/lib/sec.ts`: `filingDate` is the raw `YYYY-MM-DD`
string exactly as in the source; it is interpreted through `toMs`. -/
structure Filing where
  form : String
  accessionNumber : String
  filingDate : String
  primaryDocument : String
deriving DecidableEq, Repr

/-- Structure `ExhibitDoc` from `src/lib/sec.ts` (`sizeText?` is modelled with `""`
for the absent case, matching the `d.sizeText || ""` uses at every
consumption site). -/
structure ExhibitDoc where
  seq : String
  description : String
  type : String
  filename : String
  sizeText : String
deriving DecidableEq, Repr

/-- Structure `SelectedFiling` from `src/lib/sec.ts`. -/
structure SelectedFiling where
  filing : Filing
  reason : String
deriving DecidableEq, Repr

/-- JavaScript `String.prototype.toUpperCase()` (ASCII range, which covers
every form and exhibit code the source compares), implemented structurally
on the character list so that it evaluates inside the kernel. -/
def jsToUpper (s : String) : String := String.mk (s.data.map Char.toUpper)

/-- JavaScript `String.prototype.trim()`: whitespace stripped from both
ends, implemented structurally on the character list. -/
def jsTrim (s : String) : String :=
  String.mk (((s.data.dropWhile Char.isWhitespace).reverse.dropWhile
    Char.isWhitespace).reverse)

/-- Source `normForm`: `(form || "").trim().toUpperCase()`. -/
def normForm (form : String) : String := jsToUpper (jsTrim form)

/-- Source `isS3` from `src/lib/sec.ts`. -/
def isS3 (form : String) : Bool :=
  let f := normForm form
  f == "S-3" || f == "S-3/A" || f == "S-3MEF" || f == "S-3ASR"

/-- Source `isProxy` from `src/lib/sec.ts`. -/
def isProxy (form : String) : Bool :=
  let f := normForm form
  f == "DEF 14A" || f == "DEFA14A" || f == "DEF 14C" || f == "PRE 14C"

/-- Source `isProspectus` from `src/lib/sec.ts` (the three `==` branches are
subsumed by the `startsWith`, kept as in the source). -/
def isProspectus (form : String) : Bool :=
  let f := normForm form
  "424B".toList.isPrefixOf f.toList || f == "424B5" || f == "424B3" || f == "424B2"

/-- Source line `const asOfDate = asOf ? new Date(asOf) : new Date()`; the empty
string is falsy in JavaScript, hence also falls back to `new Date()`. -/
def asOfMsOf (toMs : String → Int) (nowMs : Int) : Option String → Int
  | some s => if s = "" then nowMs else toMs s
  | none => nowMs

/-- The `onOrBefore` helper of `pickFilingsPackWithReasons`:
`new Date(f.filingDate) <= asOfDate`. -/
def onOrBeforeB (toMs : String → Int) (aMs : Int) (f : Filing) : Bool :=
  decide (toMs f.filingDate ≤ aMs)

/-- The `withinWindow` helper of `pickFilingsPackWithReasons`:
`d >= cutoff && d <= asOfDate`. -/
def withinWindowB (toMs : String → Int) (aMs cutoff : Int) (f : Filing) : Bool :=
  decide (cutoff ≤ toMs f.filingDate) && decide (toMs f.filingDate ≤ aMs)

/-- Source line `const eligible = filings.filter(onOrBefore)`. -/
def eligibleOf (toMs : String → Int) (aMs : Int) (filings : List Filing) : List Filing :=
  filings.filter (onOrBeforeB toMs aMs)

/-- A "newest matching" selection rule: `eligible.find(pred)` pushed with a
fixed reason when present (rules 2, 5, 6, 7, 8, 9 of the selector). -/
def findRule (p : Filing → Bool) (reason : String) (el : List Filing) : List SelectedFiling :=
  ((el.find? p).map fun f => { filing := f, reason := reason }).toList

/-- Rule 3 of the selector: the two newest 10-Q filings, with indexed
reasons (`.filter(...).slice(0, 2).forEach((f, i) => push ... #${i+1})`). -/
def rule10Q (el : List Filing) : List SelectedFiling :=
  ((el.filter fun f => normForm f.form == "10-Q").take 2).mapIdx
    fun i f => { filing := f, reason := s!"10-Q (top 2) #{i + 1}" }

/-- Rule 4 of the selector (the 8-K time-window rule):
`eligible.filter(f => normForm(f.form) === "8-K" && withinWindow(f))`. -/
def rule8K (toMs : String → Int) (aMs cutoff : Int) (daysBack : Int)
    (el : List Filing) : List SelectedFiling :=
  (el.filter fun f => normForm f.form == "8-K" && withinWindowB toMs aMs cutoff f).map
    fun f => { filing := f, reason := s!"8-K within {daysBack}d" }

/-- Rule 10 of the selector (the Form 4 time-window rule). -/
def ruleForm4 (toMs : String → Int) (aMs cutoff : Int) (daysBack : Int)
    (el : List Filing) : List SelectedFiling :=
  (el.filter fun f => normForm f.form == "4" && withinWindowB toMs aMs cutoff f).map
    fun f => { filing := f, reason := s!"Form 4 within {daysBack}d" }

/-- The `sel` list of `pickFilingsPackWithReasons`: the nine selection
rules applied to the eligible set, concatenated in source order. -/
def selOf (toMs : String → Int) (nowMs : Int) (filings : List Filing)
    (daysBack : Int) (asOf : Option String) : List SelectedFiling :=
  let aMs := asOfMsOf toMs nowMs asOf
  let cutoff := aMs - daysBack * 86400000
  let el := eligibleOf toMs aMs filings
  findRule (fun f => normForm f.form == "10-K") "latest 10-K" el
    ++ rule10Q el
    ++ rule8K toMs aMs cutoff daysBack el
    ++ findRule (fun f => isS3 f.form) "latest S-3/S-3A" el
    ++ findRule (fun f => isProspectus f.form) "latest 424B*" el
    ++ findRule (fun f => normForm f.form == "EFFECT") "latest EFFECT" el
    ++ findRule (fun f => isProxy f.form) "latest Proxy" el
    ++ findRule (fun f => normForm f.form == "S-8") "latest S-8" el
    ++ ruleForm4 toMs aMs cutoff daysBack el

/-- The final dedup of `pickFilingsPackWithReasons`: a `seen` set of
accession numbers, first occurrence wins. -/
def dedupByAccession : List SelectedFiling → List String → List SelectedFiling
  | [], _ => []
  | x :: xs, seen =>
    if x.filing.accessionNumber ∈ seen then dedupByAccession xs seen
    else x :: dedupByAccession xs (x.filing.accessionNumber :: seen)

/-- Source `pickFilingsPackWithReasons` from `src/lib/sec.ts`. -/
def pickFilingsPackWithReasons (toMs : String → Int) (nowMs : Int)
    (filings : List Filing) (daysBack : Int) (asOf : Option String) :
    List SelectedFiling :=
  dedupByAccession (selOf toMs nowMs filings daysBack asOf) []

/-- Source `pickFilingsPack` from `src/lib/sec.ts`. -/
def pickFilingsPack (toMs : String → Int) (nowMs : Int)
    (filings : List Filing) (daysBack : Int) (asOf : Option String) : List Filing :=
  (pickFilingsPackWithReasons toMs nowMs filings daysBack asOf).map (·.filing)

/-! ### Exhibit classification (`src/lib/sec.ts`) -/

/-- JavaScript regex word character (`\w`, i.e. `[A-Za-z0-9_]`). -/
def isWordChar (c : Char) : Bool := c.isAlphanum || c == '_'

/-- Tests that `pre` is a prefix of `l` followed by a regex word boundary (`\b`):
either the end of input or a non-word character. -/
def wbAfterPrefix (l pre : List Char) : Bool :=
  pre.isPrefixOf l &&
    (match l.drop pre.length with
     | [] => true
     | c :: _ => !isWordChar c)

/-- Source `isHighSignalExhibitType`: `/^EX-(10|4|99|2|16|3|1|5|23|24)\b/i` tested
against `type.trim().toUpperCase()`.  Case-insensitivity is modelled by
uppercasing; the alternation with a trailing word boundary is the
disjunction of bounded-prefix tests. -/
def isHighSignalExhibitType (type : String) : Bool :=
  let t := (jsToUpper (jsTrim type)).toList
  ["10", "4", "99", "2", "16", "3", "1", "5", "23", "24"].any fun p =>
    wbAfterPrefix t ("EX-" ++ p).toList

/-- Source `isJunkType`: `/^EX-(101|104)\b/i.test(type.trim())`; the `/i` flag is
modelled by uppercasing the trimmed input. -/
def isJunkType (type : String) : Bool :=
  let t := (jsToUpper (jsTrim type)).toList
  wbAfterPrefix t "EX-101".toList || wbAfterPrefix t "EX-104".toList

/-- JavaScript `String.prototype.includes` on character lists. -/
def containsSub (sub l : List Char) : Bool := l.tails.any fun t => sub.isPrefixOf t

/-- The numeric value of a string of decimal digits. -/
def digitsToNat (ds : List Char) : ℕ := ds.foldl (fun acc c => acc * 10 + (c.toNat - 48)) 0

/-- JavaScript `parseFloat` on an (already trimmed) string, restricted to
an optional sign, integer digits and an optional decimal fraction — the
shapes the registry's size texts take; `none` is `NaN` (no digit parsed). -/
def parseFloatPrefix (l : List Char) : Option ℚ :=
  let signAndRest : Bool × List Char :=
    match l with
    | '-' :: rest => (true, rest)
    | '+' :: rest => (false, rest)
    | _ => (false, l)
  let neg := signAndRest.1
  let l1 := signAndRest.2
  let intDs := l1.takeWhile Char.isDigit
  let l2 := l1.dropWhile Char.isDigit
  let fracDs :=
    match l2 with
    | '.' :: rest => rest.takeWhile Char.isDigit
    | _ => []
  if intDs.isEmpty && fracDs.isEmpty then none
  else
    let mag : ℚ :=
      if fracDs.isEmpty then ((digitsToNat intDs : ℕ) : ℚ)
      else ((digitsToNat intDs : ℕ) : ℚ) +
        ((digitsToNat fracDs : ℕ) : ℚ) / ((10 : ℚ) ^ fracDs.length)
    some (if neg then -mag else mag)

/-- Source `parseSize` from `src/lib/sec.ts`: trim, uppercase, strip commas,
`parseFloat` (0 when `NaN`), then scale by the `MB`/`KB` unit suffix. -/
def parseSize (sizeText : String) : ℚ :=
  if sizeText = "" then 0
  else
    let s := (jsToUpper (jsTrim sizeText)).toList.filter fun c => c != ','
    match parseFloatPrefix s with
    | none => 0
    | some num =>
      if containsSub "MB".toList s then num * 1024 * 1024
      else if containsSub "KB".toList s then num * 1024
      else num

/-! ### Index-table extraction (`getDocsFromIndexHtml`)

The regex plumbing that slices the index document into `<tr>` rows, pulls
the `href` and normalizes the `<td>` texts (tag stripping, entity
replacement, whitespace collapsing) is string transport; a row is embedded
as its extracted `href` plus its list of normalized cell texts.  The
per-row acceptance logic — the part the spec describes — is embedded
verbatim. -/

/-- One `<tr>` of the index table: the first `href` found in the row and
the normalized texts of its `<td>` cells. -/
structure IndexRow where
  href : String
  tds : List String
deriving DecidableEq, Repr

/-- JavaScript `String.prototype.split` on a single separator character,
structurally (`"".split(sep)` is `[""]`, as in JavaScript). -/
def splitOnChar (sep : Char) : List Char → List (List Char)
  | [] => [[]]
  | c :: rest =>
    match splitOnChar sep rest with
    | [] => [[]]
    | h :: t => if c == sep then [] :: h :: t else (c :: h) :: t

/-- Source line `href.split("/").pop() || ""`. -/
def rowFilename (href : String) : String :=
  ((splitOnChar '/' href.toList).getLastD []).asString

/-- The body of the row loop in `getDocsFromIndexHtml`: filename from the
`href`, at least four cells, the type cell (`tds[3]`) non-empty and not
the literal header text `"Type"`; otherwise the row is skipped. -/
def extractRow (r : IndexRow) : Option ExhibitDoc :=
  let filename := rowFilename r.href
  if filename = "" ∨ r.tds.length < 4 then none
  else
    let seq := r.tds.getD 0 ""
    let description := r.tds.getD 1 ""
    let type := r.tds.getD 3 ""
    let sizeText := r.tds.getD 4 ""
    if type = "" ∨ type = "Type" then none
    else some { seq, description, type, filename, sizeText }

/-- Source `getDocsFromIndexHtml` over the extracted rows: each row yields at
most one `ExhibitDoc`; malformed rows are omitted, never an error. -/
def getDocsFromIndexHtml (rows : List IndexRow) : List ExhibitDoc :=
  rows.filterMap extractRow

/-! ### Route handler: query-parameter validation

`searchParams.get(name)` returns `null` or a string; a missing or empty
(falsy) parameter is the outer `none`, and `Number(p)` producing `NaN` is
the inner `none`; any other JavaScript number is a rational. -/

/-- Outcome of the strict input validation block of the route handler
(`deep` aside, the three numeric parameters). -/
inductive ParamCheck where
  | ok (daysBack maxEx maxMb : ℚ)
  | clientError (msg : String)
deriving DecidableEq, Repr

/-- One validation block of the route (the three blocks for
`daysBack`/`maxEx`/`maxMb` are identical up to names and bounds):
`const x = p ? Number(p) : dflt; if (Number.isNaN(x)) return 400 nanMsg;
if (x < lo || x > hi) return 400 rangeMsg;` — the value is otherwise used
exactly as parsed. -/
def checkNumericParam (p : Option (Option ℚ)) (dflt lo hi : ℚ)
    (nanMsg rangeMsg : String) : Except String ℚ :=
  match p with
  | some none => .error nanMsg
  | p' =>
    let v : ℚ := match p' with | some (some w) => w | _ => dflt
    if v < lo ∨ v > hi then .error rangeMsg else .ok v

/-- Lines 42–75 of the pack route: the three numeric parameters validated
in order, each early-returning a 400 client error. -/
def validateParams (pDays pMaxEx pMaxMb : Option (Option ℚ)) : ParamCheck :=
  match checkNumericParam pDays 365 30 730
      "Invalid daysBack parameter (must be a number)" "daysBack out of range (30-730)" with
  | .error msg => .clientError msg
  | .ok daysBack =>
    match checkNumericParam pMaxEx 25 1 100
        "Invalid maxEx parameter (must be a number)" "maxEx out of range (1-100)" with
    | .error msg => .clientError msg
    | .ok maxEx =>
      match checkNumericParam pMaxMb 75 5 500
          "Invalid maxMb parameter (must be a number)" "maxMb out of range (5-500)" with
      | .error msg => .clientError msg
      | .ok maxMb => .ok daysBack maxEx maxMb

/-- A request value for a numeric parameter that the spec calls invalid:
present but `NaN`, or present and outside `[lo, hi]`. -/
def numericParamBad (p : Option (Option ℚ)) (lo hi : ℚ) : Prop :=
  p = some none ∨ ∃ v, p = some (some v) ∧ (v < lo ∨ v > hi)

/-- Predicate: `v` is the value the handler must use for the parameter: the supplied
number, or the default when the parameter is absent, in range either
way. -/
def numericParamVal (p : Option (Option ℚ)) (dflt lo hi v : ℚ) : Prop :=
  ((p = none ∧ v = dflt) ∨ p = some (some v)) ∧ lo ≤ v ∧ v ≤ hi

/-! ### Route handler: per-filing exhibit triage loop

The loop over `scored` (route lines 324–532) is embedded as a fold of
`exhibitStep` over the sorted docs.  The state carries the run-wide
`exhibitsBytesUsed`, the per-filing `downloadedCount`, this filing's
`DOCS_INVENTORY.csv` rows, and the list of accepted (archived) exhibits.
The download is an oracle returning `exBuf.byteLength`, `none` when
`downloadAsBuffer` throws. -/

/-- One row of `DOCS_INVENTORY.csv` (`doc := none` for the placeholder row
written when the parsed index yields no doc rows). -/
structure InvRow where
  doc : Option ExhibitDoc
  status : String
  reason : String
deriving DecidableEq, Repr

/-- State threaded through the exhibit loop. -/
structure ExState where
  exhibitsBytesUsed : ℕ
  downloadedCount : ℕ
  inventory : List InvRow
  accepted : List ExhibitDoc
deriving DecidableEq, Repr

/-- Append a SKIPPED inventory row (each skip branch of the loop pushes
one row and leaves the rest of the state unchanged). -/
def skipRow (d : ExhibitDoc) (reason : String) (st : ExState) : ExState :=
  { st with inventory := st.inventory ++ [⟨some d, "SKIPPED", reason⟩] }

/-- The body of `for (const { d } of scored)`: junk filter, high-signal
filter, the two budget caps (count, then cumulative bytes — the latter
compared only against bytes already used), the download, the post-download
byte cap re-check against the actual length, then acceptance.  In deep
mode the source sets both caps to `Infinity`; every cap guard is already
conditioned on `!deep`, which the embedding keeps. -/
def exhibitStep (deep : Bool) (maxPerFiling maxTotalBytes : ℕ)
    (download : ExhibitDoc → Option ℕ) (st : ExState) (d : ExhibitDoc) : ExState :=
  if d.filename == "" || d.type == "" then st
  else if isJunkType d.type then skipRow d "junk (XBRL noise)" st
  else if !deep && !isHighSignalExhibitType d.type then
    skipRow d "not high-signal (non-deep mode)" st
  else if !deep && decide (st.downloadedCount ≥ maxPerFiling) then
    skipRow d "cap: maxExPerFiling" st
  else if !deep && decide (st.exhibitsBytesUsed ≥ maxTotalBytes) then
    skipRow d "cap: maxTotalMB" st
  else
    match download d with
    | none => skipRow d "download failed" st
    | some len =>
      if !deep && decide (st.exhibitsBytesUsed + len > maxTotalBytes) then
        skipRow d "cap: would exceed maxTotalMB" st
      else
        { exhibitsBytesUsed := st.exhibitsBytesUsed + len
          downloadedCount := st.downloadedCount + 1
          inventory := st.inventory ++ [⟨some d, "DOWNLOADED", ""⟩]
          accepted := st.accepted ++ [d] }

/-- Score assigned in the `scored` mapping (high-signal 3, junk 0,
otherwise 1). -/
def scoreOf (d : ExhibitDoc) : ℕ :=
  if isHighSignalExhibitType d.type then 3 else if isJunkType d.type then 0 else 1

/-- The sort comparator: descending score, then ascending parsed size
(`b.score - a.score`, then `a.sizeBytes - b.sizeBytes`). -/
def triageLe (a b : ExhibitDoc) : Bool :=
  if scoreOf a == scoreOf b then decide (parseSize a.sizeText ≤ parseSize b.sizeText)
  else decide (scoreOf b < scoreOf a)

/-- Source `docs.map(score).sort(...)`, a stable sort as in modern JavaScript. -/
def sortScored (docs : List ExhibitDoc) : List ExhibitDoc := docs.mergeSort triageLe

/-- The exhibit loop for one filing's doc list. -/
def processDocsLoop (deep : Bool) (maxPerFiling maxTotalBytes : ℕ)
    (download : ExhibitDoc → Option ℕ) (st : ExState) (docs : List ExhibitDoc) : ExState :=
  docs.foldl (exhibitStep deep maxPerFiling maxTotalBytes download) st

/-- Per-filing processing once the index document has been retrieved and
parsed (route lines 285–533): the empty-docs placeholder row, the
`includeExhibits` switch (every doc inventoried as SKIPPED when exhibits
are disabled), then the triage loop over the sorted docs.
`bytesUsed0` is the run-wide `exhibitsBytesUsed` carried in from earlier
filings; `downloadedCount` restarts at 0 for each filing. -/
def processFilingDocs (deep includeExhibits : Bool) (maxPerFiling maxTotalBytes : ℕ)
    (download : ExhibitDoc → Option ℕ) (bytesUsed0 : ℕ) (docs : List ExhibitDoc) : ExState :=
  let st0 : ExState := ⟨bytesUsed0, 0, [], []⟩
  let st1 := if docs.isEmpty then
      { st0 with inventory := st0.inventory ++
          [⟨none, "SKIPPED", "index parsed but no docs rows found (parser/table variance)"⟩] }
    else st0
  if !includeExhibits then
    { st1 with inventory := st1.inventory ++
        docs.map fun d => ⟨some d, "SKIPPED", "exhibits disabled"⟩ }
  else
    processDocsLoop deep maxPerFiling maxTotalBytes download st1 (sortScored docs)

/-- An inventory row as the audit contract demands it: tagged DOWNLOADED
or SKIPPED, and a SKIPPED row carries a non-empty reason. -/
def rowOk (r : InvRow) : Prop :=
  (r.status = "DOWNLOADED" ∨ r.status = "SKIPPED") ∧
    (r.status = "SKIPPED" → r.reason ≠ "")

/-! ### CSV encoding (`toCsvLine`) and standard CSV field parsing

`toCsvLine` is embedded from the source on the already-stringified cells
(`String(c ?? "")`); `parseCsvLine` is the claim-side definition of
standard (RFC-4180-style) CSV field parsing of one line: fields separated
by commas, a field beginning with a double quote runs to the matching
quote with `""` standing for a literal quote. -/

/-- Source regex `/[",\n]/.test(v)`. -/
def needsQuote (l : List Char) : Bool := l.any fun c => c == '"' || c == ',' || c == '\n'

/-- Source `v.replace(/"/g, '""')`. -/
def escapeQuotes (l : List Char) : List Char :=
  l.flatMap fun c => if c == '"' then ['"', '"'] else [c]

/-- One cell of `toCsvLine`: `needsQuote ? `"${escaped}"` : escaped`
(when no quoting is needed the escaping is the identity, since the cell
contains no quote). -/
def encodeCell (s : String) : List Char :=
  if needsQuote s.toList then '"' :: (escapeQuotes s.toList ++ ['"']) else s.toList

/-- JavaScript `Array.prototype.join(",")`. -/
def joinComma : List (List Char) → List Char
  | [] => []
  | [x] => x
  | x :: xs => x ++ ',' :: joinComma xs

/-- Source `toCsvLine` from `src/lib/sec.ts`, on stringified cells. -/
def toCsvLine (cells : List String) : String :=
  (joinComma (cells.map encodeCell)).asString

/-- Standard CSV field parsing of one line, as a state machine over the
characters: `inQ` says whether we are inside a quoted field, `cur` holds
the current field reversed, `acc` the finished fields reversed. -/
def csvGo : Bool → List Char → List Char → List String → List String
  | false, cur, [], acc => (cur.reverse.asString :: acc).reverse
  | false, cur, c :: rest, acc =>
    if c == ',' then csvGo false [] rest (cur.reverse.asString :: acc)
    else if c == '"' && cur.isEmpty then csvGo true [] rest acc
    else csvGo false (c :: cur) rest acc
  | true, cur, [], acc => (cur.reverse.asString :: acc).reverse
  | true, cur, '"' :: '"' :: rest, acc => csvGo true ('"' :: cur) rest acc
  | true, cur, '"' :: rest, acc => csvGo false cur rest acc
  | true, cur, c :: rest, acc => csvGo true (c :: cur) rest acc

/-- Parse one CSV line into its fields. -/
def parseCsvLine (s : String) : List String := csvGo false [] s.toList []

/-! ### Lemmas about the selector -/

theorem mem_of_mem_dedupByAccession {sf : SelectedFiling} {l : List SelectedFiling}
    {seen : List String} (h : sf ∈ dedupByAccession l seen) : sf ∈ l := by
  induction l generalizing seen with
  | nil => simp [dedupByAccession] at h
  | cons x xs ih =>
    rw [dedupByAccession] at h
    split at h
    · exact List.mem_cons_of_mem _ (ih h)
    · rcases List.mem_cons.mp h with h1 | h2
      · exact h1 ▸ List.mem_cons_self _ _
      · exact List.mem_cons_of_mem _ (ih h2)

theorem exists_of_mem_mapIdx {α β : Type*} {b : β} {l : List α} {g : ℕ → α → β}
    (h : b ∈ l.mapIdx g) : ∃ i a, a ∈ l ∧ b = g i a := by
  induction l generalizing g with
  | nil => simp [List.mapIdx_nil] at h
  | cons x xs ih =>
    rw [List.mapIdx_cons] at h
    rcases List.mem_cons.mp h with h1 | h2
    · exact ⟨0, x, List.mem_cons_self _ _, h1⟩
    · obtain ⟨i, a, ha, hb⟩ := ih h2
      exact ⟨i + 1, a, List.mem_cons_of_mem _ ha, hb⟩

theorem filing_mem_of_mem_findRule {p : Filing → Bool} {r : String} {el : List Filing}
    {sf : SelectedFiling} (h : sf ∈ findRule p r el) : sf.filing ∈ el := by
  unfold findRule at h
  cases hf : el.find? p with
  | none => simp [hf] at h
  | some f =>
    simp [hf] at h
    rw [h]
    exact List.mem_of_find?_eq_some hf

theorem filing_mem_eligible_of_mem_selOf {toMs : String → Int} {nowMs : Int}
    {filings : List Filing} {daysBack : Int} {asOf : Option String} {sf : SelectedFiling}
    (h : sf ∈ selOf toMs nowMs filings daysBack asOf) :
    sf.filing ∈ eligibleOf toMs (asOfMsOf toMs nowMs asOf) filings := by
  unfold selOf at h
  simp only [List.mem_append] at h
  rcases h with ((((((((h | h) | h) | h) | h) | h) | h) | h) | h)
  · exact filing_mem_of_mem_findRule h
  · obtain ⟨i, a, ha, hb⟩ := exists_of_mem_mapIdx h
    have ha2 : a ∈ eligibleOf toMs (asOfMsOf toMs nowMs asOf) filings :=
      (List.filter_sublist _).subset (List.take_subset _ _ ha)
    rw [hb]
    exact ha2
  · obtain ⟨f, hf, he⟩ := List.mem_map.mp h
    rw [← he]
    exact (List.filter_sublist _).subset hf
  · exact filing_mem_of_mem_findRule h
  · exact filing_mem_of_mem_findRule h
  · exact filing_mem_of_mem_findRule h
  · exact filing_mem_of_mem_findRule h
  · exact filing_mem_of_mem_findRule h
  · obtain ⟨f, hf, he⟩ := List.mem_map.mp h
    rw [← he]
    exact (List.filter_sublist _).subset hf

theorem le_asOf_of_mem_eligible {toMs : String → Int} {aMs : Int} {filings : List Filing}
    {f : Filing} (h : f ∈ eligibleOf toMs aMs filings) : toMs f.filingDate ≤ aMs := by
  have h2 := (List.mem_filter.mp h).2
  simpa [onOrBeforeB] using h2

/-- C1: every filing in the output of `pickFilingsPackWithReasons` has a
filing date (timestamp) less than or equal to the as-of instant, which is
the parsed `asOf` date when present and the current instant otherwise; no
rule can select a filing dated after the reference instant. -/
theorem selected_filing_on_or_before_asOf (toMs : String → Int) (nowMs : Int)
    (filings : List Filing) (daysBack : Int) (asOf : Option String) :
    ∀ sf ∈ pickFilingsPackWithReasons toMs nowMs filings daysBack asOf,
      toMs sf.filing.filingDate ≤ asOfMsOf toMs nowMs asOf := by
  intro sf h
  exact le_asOf_of_mem_eligible (filing_mem_eligible_of_mem_selOf
    (mem_of_mem_dedupByAccession h))

/-- Witness for C1 at a concrete one-filing history. -/
theorem selected_filing_on_or_before_asOf_witness :
    (⟨⟨"10-K", "acc1", "2024-01-01", "a.htm"⟩, "latest 10-K"⟩ : SelectedFiling) ∈
      pickFilingsPackWithReasons (fun _ => 0) 5
        [⟨"10-K", "acc1", "2024-01-01", "a.htm"⟩] 365 none ∧
    (fun _ => (0 : Int)) (Filing.filingDate ⟨"10-K", "acc1", "2024-01-01", "a.htm"⟩) ≤
      asOfMsOf (fun _ => 0) 5 none :=
  ⟨by decide, selected_filing_on_or_before_asOf (fun _ => 0) 5
    [⟨"10-K", "acc1", "2024-01-01", "a.htm"⟩] 365 none
    ⟨⟨"10-K", "acc1", "2024-01-01", "a.htm"⟩, "latest 10-K"⟩ (by decide)⟩

theorem dedupByAccession_notMem_seen {sf : SelectedFiling} {l : List SelectedFiling}
    {seen : List String} (h : sf ∈ dedupByAccession l seen) :
    sf.filing.accessionNumber ∉ seen ∧
      l.find? (fun x => x.filing.accessionNumber == sf.filing.accessionNumber) = some sf := by
  induction l generalizing seen with
  | nil => simp [dedupByAccession] at h
  | cons x xs ih =>
    rw [dedupByAccession] at h
    split at h
    case isTrue hseen =>
      obtain ⟨hnot, hfind⟩ := ih h
      refine ⟨hnot, ?_⟩
      rw [List.find?_cons]
      have hne : (x.filing.accessionNumber == sf.filing.accessionNumber) = false := by
        rw [beq_eq_false_iff_ne]
        intro he
        exact hnot (he ▸ hseen)
      rw [hne]
      exact hfind
    case isFalse hseen =>
      rcases List.mem_cons.mp h with h1 | h2
      · subst h1
        refine ⟨hseen, ?_⟩
        rw [List.find?_cons]
        simp
      · obtain ⟨hnot, hfind⟩ := ih h2
        have hne : (x.filing.accessionNumber == sf.filing.accessionNumber) = false := by
          rw [beq_eq_false_iff_ne]
          intro he
          exact hnot (he ▸ List.mem_cons_self _ _)
        refine ⟨fun hin => hnot (List.mem_cons_of_mem _ hin), ?_⟩
        rw [List.find?_cons, hne]
        exact hfind

theorem dedupByAccession_nodup (l : List SelectedFiling) :
    ∀ seen, ((dedupByAccession l seen).map fun sf => sf.filing.accessionNumber).Nodup := by
  induction l with
  | nil => intro seen; simp [dedupByAccession]
  | cons x xs ih =>
    intro seen
    rw [dedupByAccession]
    split
    · exact ih seen
    · simp only [List.map_cons, List.nodup_cons]
      refine ⟨?_, ih _⟩
      intro hmem
      obtain ⟨sf, hsf, he⟩ := List.mem_map.mp hmem
      exact (dedupByAccession_notMem_seen hsf).1 (he ▸ List.mem_cons_self _ _)

theorem dedupByAccession_complete {x : SelectedFiling} :
    ∀ (l : List SelectedFiling) (seen : List String), x ∈ l →
      x.filing.accessionNumber ∉ seen →
      ∃ sf ∈ dedupByAccession l seen,
        sf.filing.accessionNumber = x.filing.accessionNumber := by
  intro l
  induction l with
  | nil => intro seen h _; simp at h
  | cons y ys ih =>
    intro seen hx hseen
    rw [dedupByAccession]
    split
    case isTrue hy =>
      rcases List.mem_cons.mp hx with rfl | hx'
      · exact absurd hy hseen
      · exact ih seen hx' hseen
    case isFalse hy =>
      rcases List.mem_cons.mp hx with rfl | hx'
      · exact ⟨x, List.mem_cons_self _ _, rfl⟩
      · by_cases hacc : x.filing.accessionNumber = y.filing.accessionNumber
        · exact ⟨y, List.mem_cons_self _ _, hacc.symm⟩
        · have hnot : x.filing.accessionNumber ∉ y.filing.accessionNumber :: seen := by
            intro hmem
            rcases List.mem_cons.mp hmem with h1 | h2
            · exact hacc h1
            · exact hseen h2
          obtain ⟨sf, hsf, he⟩ := ih _ hx' hnot
          exact ⟨sf, List.mem_cons_of_mem _ hsf, he⟩

/-- C4: the output of `pickFilingsPackWithReasons` contains no two entries
with the same accession number; each output entry is exactly the first
entry of the concatenated rule outputs (`selOf`, rules in application
order) carrying its accession number; and every filing claimed by any
rule is present — some output entry carries its accession.  Together: a
filing matched by several rules is recorded exactly once, under the first
rule that claimed it. -/
theorem pick_nodup_accessions_first_rule_wins (toMs : String → Int) (nowMs : Int)
    (filings : List Filing) (daysBack : Int) (asOf : Option String) :
    ((pickFilingsPackWithReasons toMs nowMs filings daysBack asOf).map
        fun sf => sf.filing.accessionNumber).Nodup ∧
      (∀ sf ∈ pickFilingsPackWithReasons toMs nowMs filings daysBack asOf,
        (selOf toMs nowMs filings daysBack asOf).find?
          (fun x => x.filing.accessionNumber == sf.filing.accessionNumber) = some sf) ∧
      ∀ x ∈ selOf toMs nowMs filings daysBack asOf,
        ∃ sf ∈ pickFilingsPackWithReasons toMs nowMs filings daysBack asOf,
          sf.filing.accessionNumber = x.filing.accessionNumber :=
  ⟨dedupByAccession_nodup _ _, fun _ h => (dedupByAccession_notMem_seen h).2,
    fun _ hx => dedupByAccession_complete _ [] hx (by simp)⟩

/-- Witness for C4: the concrete claimed 8-K is present in the output
(completeness), and it is the first `selOf` record with its accession. -/
theorem pick_nodup_accessions_first_rule_wins_witness :
    ((⟨⟨"8-K", "a2", "d", "p"⟩, "8-K within 365d"⟩ : SelectedFiling) ∈
        pickFilingsPackWithReasons (fun _ => 0) 5 [⟨"8-K", "a2", "d", "p"⟩] 365 none ∧
      (selOf (fun _ => 0) 5 [⟨"8-K", "a2", "d", "p"⟩] 365 none).find?
          (fun x => x.filing.accessionNumber ==
            (Filing.accessionNumber ⟨"8-K", "a2", "d", "p"⟩)) =
        some ⟨⟨"8-K", "a2", "d", "p"⟩, "8-K within 365d"⟩) ∧
    ∃ sf ∈ pickFilingsPackWithReasons (fun _ => 0) 5 [⟨"8-K", "a2", "d", "p"⟩] 365 none,
      sf.filing.accessionNumber =
        (Filing.accessionNumber ⟨"8-K", "a2", "d", "p"⟩) :=
  ⟨⟨by decide, (pick_nodup_accessions_first_rule_wins (fun _ => 0) 5
      [⟨"8-K", "a2", "d", "p"⟩] 365 none).2.1
      ⟨⟨"8-K", "a2", "d", "p"⟩, "8-K within 365d"⟩ (by decide)⟩,
    (pick_nodup_accessions_first_rule_wins (fun _ => 0) 5
      [⟨"8-K", "a2", "d", "p"⟩] 365 none).2.2
      ⟨⟨"8-K", "a2", "d", "p"⟩, "8-K within 365d"⟩ (by decide)⟩

/-- C5: a filing is selected by the 8-K window rule (rule 4) if and only
if it is a current-events (8-K) filing from the input whose date lies in
`[asOf − daysBack·86400000 ms, asOf]`; in particular with `daysBack = 30`
an 8-K dated 40 days before the as-of instant is never selected by the
rule even though it predates the as-of instant. -/
theorem rule8K_selects_iff_within_window (toMs : String → Int) (nowMs : Int)
    (filings : List Filing) (daysBack : Int) (asOf : Option String) (f : Filing) :
    ((∃ r, (⟨f, r⟩ : SelectedFiling) ∈
        rule8K toMs (asOfMsOf toMs nowMs asOf)
          (asOfMsOf toMs nowMs asOf - daysBack * 86400000) daysBack
          (eligibleOf toMs (asOfMsOf toMs nowMs asOf) filings)) ↔
      f ∈ filings ∧ normForm f.form = "8-K" ∧
        asOfMsOf toMs nowMs asOf - daysBack * 86400000 ≤ toMs f.filingDate ∧
        toMs f.filingDate ≤ asOfMsOf toMs nowMs asOf) ∧
    (daysBack = 30 → toMs f.filingDate = asOfMsOf toMs nowMs asOf - 40 * 86400000 →
      ¬ ∃ r, (⟨f, r⟩ : SelectedFiling) ∈
        rule8K toMs (asOfMsOf toMs nowMs asOf)
          (asOfMsOf toMs nowMs asOf - daysBack * 86400000) daysBack
          (eligibleOf toMs (asOfMsOf toMs nowMs asOf) filings)) := by
  have hiff : (∃ r, (⟨f, r⟩ : SelectedFiling) ∈
      rule8K toMs (asOfMsOf toMs nowMs asOf)
        (asOfMsOf toMs nowMs asOf - daysBack * 86400000) daysBack
        (eligibleOf toMs (asOfMsOf toMs nowMs asOf) filings)) ↔
      f ∈ filings ∧ normForm f.form = "8-K" ∧
        asOfMsOf toMs nowMs asOf - daysBack * 86400000 ≤ toMs f.filingDate ∧
        toMs f.filingDate ≤ asOfMsOf toMs nowMs asOf := by
    simp only [rule8K, eligibleOf, List.mem_map, List.mem_filter, withinWindowB,
      onOrBeforeB, Bool.and_eq_true, decide_eq_true_eq, beq_iff_eq,
      SelectedFiling.mk.injEq]
    constructor
    · rintro ⟨r, f', ⟨⟨⟨hmem, hle⟩, hform, hwin⟩, rfl, _⟩⟩
      exact ⟨hmem, hform, hwin⟩
    · rintro ⟨hmem, hform, hcut, hle⟩
      exact ⟨_, f, ⟨⟨⟨hmem, hle⟩, hform, hcut, hle⟩, rfl, rfl⟩⟩
  refine ⟨hiff, ?_⟩
  intro h30 hdate hex
  obtain ⟨-, -, hcut, -⟩ := hiff.mp hex
  rw [hdate, h30] at hcut
  omega

/-- Witness for C5: a concrete 8-K inside the window is selected by the
rule, via the forward use of the equivalence. -/
theorem rule8K_selects_iff_within_window_witness :
    ∃ r, (⟨⟨"8-K", "a3", "d", "p"⟩, r⟩ : SelectedFiling) ∈
      rule8K (fun _ => 0) (asOfMsOf (fun _ => 0) 0 none)
        (asOfMsOf (fun _ => 0) 0 none - 365 * 86400000) 365
        (eligibleOf (fun _ => 0) (asOfMsOf (fun _ => 0) 0 none) [⟨"8-K", "a3", "d", "p"⟩]) :=
  (rule8K_selects_iff_within_window (fun _ => 0) 0 [⟨"8-K", "a3", "d", "p"⟩]
    365 none ⟨"8-K", "a3", "d", "p"⟩).1.mpr (by refine ⟨by decide, by decide, by decide, by decide⟩)

/-! ### Junk exhibits (C7) -/

/-- C7: an exhibit whose type matches the junk denylist (EX-101/EX-104
family) is never downloaded and never accepted by the triage step, in
every mode — the junk guard precedes the deep-mode checks, so it holds
even when `deep = true` disables both budget caps.  "Never downloaded" is
expressed by the step's result not depending on the download oracle at
all; "never accepted" by the accepted list, byte counter and download
counter being left unchanged. -/
theorem junk_exhibit_never_downloaded (deep : Bool) (maxPerFiling maxTotalBytes : ℕ)
    (st : ExState) (d : ExhibitDoc) (hj : isJunkType d.type = true) :
    (∀ download,
      (exhibitStep deep maxPerFiling maxTotalBytes download st d).accepted = st.accepted ∧
      (exhibitStep deep maxPerFiling maxTotalBytes download st d).exhibitsBytesUsed =
        st.exhibitsBytesUsed ∧
      (exhibitStep deep maxPerFiling maxTotalBytes download st d).downloadedCount =
        st.downloadedCount) ∧
    ∀ download download',
      exhibitStep deep maxPerFiling maxTotalBytes download st d =
        exhibitStep deep maxPerFiling maxTotalBytes download' st d := by
  constructor
  · intro download
    unfold exhibitStep
    rw [hj]
    split <;> simp [skipRow]
  · intro dl dl'
    unfold exhibitStep
    rw [hj]
    split <;> rfl

/-- Witness for C7: a concrete XBRL instance exhibit under `deep = true`
and unlimited-looking caps is still not accepted. -/
theorem junk_exhibit_never_downloaded_witness :
    (exhibitStep true 25 104857600 (fun _ => some 7)
        ⟨0, 0, [], []⟩ ⟨"1", "inst", "EX-101.INS", "x.xml", "500 KB"⟩).accepted =
      (⟨0, 0, [], []⟩ : ExState).accepted :=
  ((junk_exhibit_never_downloaded true 25 104857600 ⟨0, 0, [], []⟩
    ⟨"1", "inst", "EX-101.INS", "x.xml", "500 KB"⟩ (by decide)).1 (fun _ => some 7)).1

/-! ### Index-row extraction (C8) -/

/-- C8: a table row yields an `ExhibitDoc` exactly when it has a
resolvable (non-empty) filename and at least four text columns and its
normalized type column is neither empty nor the literal header text
`"Type"`; over a whole index, every produced doc comes from such a row,
and rows are only ever omitted (never an error — the extractor is a total
function returning at most one doc per row). -/
theorem getDocs_row_characterization :
    (∀ r : IndexRow, (∃ d, extractRow r = some d) ↔
      rowFilename r.href ≠ "" ∧ 4 ≤ r.tds.length ∧
        r.tds.getD 3 "" ≠ "" ∧ r.tds.getD 3 "" ≠ "Type") ∧
    (∀ (rows : List IndexRow) (d : ExhibitDoc),
      d ∈ getDocsFromIndexHtml rows → ∃ r ∈ rows, extractRow r = some d) ∧
    (∀ rows : List IndexRow, (getDocsFromIndexHtml rows).length ≤ rows.length) := by
  refine ⟨?_, ?_, ?_⟩
  · intro r
    constructor
    · rintro ⟨d, hd⟩
      simp only [extractRow] at hd
      split at hd
      · exact absurd hd (by simp)
      case isFalse h1 =>
        split at hd
        · exact absurd hd (by simp)
        case isFalse h2 =>
          push_neg at h1 h2
          exact ⟨h1.1, by omega, h2.1, h2.2⟩
    · rintro ⟨hf, hlen, ht1, ht2⟩
      simp only [extractRow]
      rw [if_neg (by push_neg; exact ⟨hf, by omega⟩), if_neg (by push_neg; exact ⟨ht1, ht2⟩)]
      exact ⟨_, rfl⟩
  · intro rows d h
    exact List.mem_filterMap.mp h
  · intro rows
    exact List.length_filterMap_le _ _

/-- Witness for C8: a well-formed row produces its doc, a three-column row
produces none. -/
theorem getDocs_row_characterization_witness :
    (∃ r ∈ [(⟨"x/ex.htm", ["1", "d", "doc", "EX-10.1", "10"]⟩ : IndexRow)],
      extractRow r =
        some ⟨"1", "d", "EX-10.1", "ex.htm", "10"⟩) ∧
    ¬ ∃ d, extractRow (⟨"x/ex.htm", ["1", "d", "doc"]⟩ : IndexRow) = some d :=
  ⟨getDocs_row_characterization.2.1 [⟨"x/ex.htm", ["1", "d", "doc", "EX-10.1", "10"]⟩]
      ⟨"1", "d", "EX-10.1", "ex.htm", "10"⟩ (by decide),
    fun h => by
      have h2 := (getDocs_row_characterization.1 ⟨"x/ex.htm", ["1", "d", "doc"]⟩).mp h
      exact absurd h2.2.1 (by decide)⟩

/-! ### The total byte cap (C2, C3) -/

theorem exhibitStep_bytes_mono (deep : Bool) (maxPerFiling maxTotalBytes : ℕ)
    (download : ExhibitDoc → Option ℕ) (st : ExState) (d : ExhibitDoc) :
    st.exhibitsBytesUsed ≤
      (exhibitStep deep maxPerFiling maxTotalBytes download st d).exhibitsBytesUsed := by
  unfold exhibitStep
  repeat' split
  all_goals simp [skipRow]

theorem exhibitStep_bytes_le_cap (maxPerFiling maxTotalBytes : ℕ)
    (download : ExhibitDoc → Option ℕ) (st : ExState) (d : ExhibitDoc)
    (h : st.exhibitsBytesUsed ≤ maxTotalBytes) :
    (exhibitStep false maxPerFiling maxTotalBytes download st d).exhibitsBytesUsed ≤
      maxTotalBytes := by
  unfold exhibitStep
  repeat' split
  all_goals simp_all [skipRow]

theorem processDocsLoop_bytes_le_cap (maxPerFiling maxTotalBytes : ℕ)
    (download : ExhibitDoc → Option ℕ) (docs : List ExhibitDoc) :
    ∀ st : ExState, st.exhibitsBytesUsed ≤ maxTotalBytes →
      (processDocsLoop false maxPerFiling maxTotalBytes download st docs).exhibitsBytesUsed ≤
        maxTotalBytes := by
  induction docs with
  | nil => intro st h; exact h
  | cons d ds ih =>
    intro st h
    exact ih _ (exhibitStep_bytes_le_cap maxPerFiling maxTotalBytes download st d h)

/-- C3: in non-deep mode the cumulative accepted exhibit bytes never
exceed `maxTotalBytes` at any point of the loop (the bound is an invariant
of every loop state, hence holds after every prefix of the docs), and the
`exhibitsBytesUsed` counter is monotone — a step never decreases it, so
bytes counted against the cap are never released within a run. -/
theorem exhibit_bytes_capped_and_monotone (maxPerFiling maxTotalBytes : ℕ)
    (download : ExhibitDoc → Option ℕ) :
    (∀ (deep : Bool) (st : ExState) (d : ExhibitDoc),
      st.exhibitsBytesUsed ≤
        (exhibitStep deep maxPerFiling maxTotalBytes download st d).exhibitsBytesUsed) ∧
    (∀ (docs : List ExhibitDoc) (st : ExState), st.exhibitsBytesUsed ≤ maxTotalBytes →
      (processDocsLoop false maxPerFiling maxTotalBytes download st docs).exhibitsBytesUsed ≤
        maxTotalBytes) ∧
    (∀ (includeExhibits : Bool) (bytesUsed0 : ℕ) (docs : List ExhibitDoc),
      bytesUsed0 ≤ maxTotalBytes →
      (processFilingDocs false includeExhibits maxPerFiling maxTotalBytes download
          bytesUsed0 docs).exhibitsBytesUsed ≤ maxTotalBytes) := by
  refine ⟨fun deep => exhibitStep_bytes_mono deep _ _ _,
    processDocsLoop_bytes_le_cap _ _ _, ?_⟩
  intro includeExhibits bytesUsed0 docs h
  unfold processFilingDocs
  split <;> split
  all_goals first
    | exact h
    | (refine processDocsLoop_bytes_le_cap _ _ _ _ _ ?_; exact h)

/-- Witness for C3: a concrete two-doc run against a 100-byte cap. -/
theorem exhibit_bytes_capped_and_monotone_witness :
    (0 : ℕ) ≤ 100 ∧
    (processDocsLoop false 25 100 (fun _ => some 80) ⟨0, 0, [], []⟩
        [⟨"1", "d", "EX-10.1", "a.htm", ""⟩, ⟨"2", "d", "EX-10.2", "b.htm", ""⟩]).exhibitsBytesUsed ≤
      100 :=
  ⟨by decide, (exhibit_bytes_capped_and_monotone 25 100 (fun _ => some 80)).2.1
    [⟨"1", "d", "EX-10.1", "a.htm", ""⟩, ⟨"2", "d", "EX-10.2", "b.htm", ""⟩]
    ⟨0, 0, [], []⟩ (by decide)⟩

/-- C2 counterexample: the pre-download cap check does not look at the
item's reported size.  Cap 100 bytes, reported size 3000000 bytes (so
accepting it would, measured by the reported size, blow the cap), actual
downloaded size 10 bytes: the item is downloaded and accepted rather than
skipped pre-download with a total-size-cap reason. -/
theorem preDownload_cap_ignores_reported_size :
    (exhibitStep false 25 100 (fun _ => some 10) ⟨0, 0, [], []⟩
        ⟨"1", "d", "EX-10.1", "ex.htm", "3000000"⟩).inventory =
      [⟨some ⟨"1", "d", "EX-10.1", "ex.htm", "3000000"⟩, "DOWNLOADED", ""⟩] ∧
    (100 : ℚ) < parseSize "3000000" :=
  ⟨by decide, by decide⟩

/-- C2 amended: in non-deep mode the total-size cap is enforced by two
checks, neither of which uses the item's reported size (that size is only
a sort key): before download the item is skipped with reason
`cap: maxTotalMB` exactly when the cumulative accepted bytes have already
reached `maxTotalBytes`, and after download it is skipped with reason
`cap: would exceed maxTotalMB` when the cumulative bytes plus the actual
downloaded length would exceed `maxTotalBytes`; otherwise the actual
length is added to the cumulative counter. -/
theorem total_size_cap_checked_twice (maxPerFiling maxTotalBytes : ℕ)
    (download : ExhibitDoc → Option ℕ) (st : ExState) (d : ExhibitDoc)
    (hfn : d.filename ≠ "") (hty : d.type ≠ "")
    (hjunk : isJunkType d.type = false) (hhs : isHighSignalExhibitType d.type = true)
    (hcount : st.downloadedCount < maxPerFiling) :
    (maxTotalBytes ≤ st.exhibitsBytesUsed →
      exhibitStep false maxPerFiling maxTotalBytes download st d =
        skipRow d "cap: maxTotalMB" st) ∧
    (∀ len, st.exhibitsBytesUsed < maxTotalBytes → download d = some len →
      maxTotalBytes < st.exhibitsBytesUsed + len →
      exhibitStep false maxPerFiling maxTotalBytes download st d =
        skipRow d "cap: would exceed maxTotalMB" st) ∧
    (∀ len, st.exhibitsBytesUsed < maxTotalBytes → download d = some len →
      st.exhibitsBytesUsed + len ≤ maxTotalBytes →
      (exhibitStep false maxPerFiling maxTotalBytes download st d).exhibitsBytesUsed =
        st.exhibitsBytesUsed + len ∧
      (exhibitStep false maxPerFiling maxTotalBytes download st d).accepted =
        st.accepted ++ [d]) := by
  have hfn' : (d.filename == "") = false := by simp [hfn]
  have hty' : (d.type == "") = false := by simp [hty]
  have hcount' : decide (st.downloadedCount ≥ maxPerFiling) = false := by
    simp [Nat.not_le]
    omega
  refine ⟨?_, ?_, ?_⟩
  · intro hcap
    simp [exhibitStep, hfn', hty', hjunk, hhs, hcount', hcap]
  · intro len hlt hdl hover
    simp [exhibitStep, hfn', hty', hjunk, hhs, hcount', Nat.not_le.mpr hlt, hdl, hover]
  · intro len hlt hdl hfits
    simp [exhibitStep, hfn', hty', hjunk, hhs, hcount', Nat.not_le.mpr hlt, hdl,
      Nat.not_lt.mpr hfits]

/-- Witness for C2's amended statement: with the cap already reached, a
high-signal exhibit is skipped pre-download with the `cap: maxTotalMB`
reason. -/
theorem total_size_cap_checked_twice_witness :
    exhibitStep false 25 100 (fun _ => some 10) ⟨100, 0, [], []⟩
        ⟨"1", "d", "EX-10.1", "ex.htm", "5"⟩ =
      skipRow ⟨"1", "d", "EX-10.1", "ex.htm", "5"⟩ "cap: maxTotalMB" ⟨100, 0, [], []⟩ :=
  (total_size_cap_checked_twice 25 100 (fun _ => some 10) ⟨100, 0, [], []⟩
    ⟨"1", "d", "EX-10.1", "ex.htm", "5"⟩ (by decide) (by decide) (by decide)
    (by decide) (by decide)).1 (by decide)

/-! ### The DOCS_INVENTORY audit (C6) -/

theorem extractRow_fields_nonempty {r : IndexRow} {d : ExhibitDoc}
    (h : extractRow r = some d) : d.filename ≠ "" ∧ d.type ≠ "" := by
  simp only [extractRow] at h
  split at h
  · exact absurd h (by simp)
  case isFalse h1 =>
    split at h
    · exact absurd h (by simp)
    case isFalse h2 =>
      push_neg at h1 h2
      obtain rfl := (Option.some.injEq _ _).mp h
      exact ⟨h1.1, h2.1⟩

theorem getDocs_fields_nonempty (rows : List IndexRow) :
    ∀ d ∈ getDocsFromIndexHtml rows, d.filename ≠ "" ∧ d.type ≠ "" := by
  intro d hd
  obtain ⟨r, -, hr⟩ := List.mem_filterMap.mp hd
  exact extractRow_fields_nonempty hr

theorem exhibitStep_inventory_append (deep : Bool) (maxPerFiling maxTotalBytes : ℕ)
    (download : ExhibitDoc → Option ℕ) (st : ExState) (d : ExhibitDoc)
    (hf : d.filename ≠ "") (ht : d.type ≠ "") :
    ∃ row, rowOk row ∧ row.doc = some d ∧
      (exhibitStep deep maxPerFiling maxTotalBytes download st d).inventory =
        st.inventory ++ [row] := by
  have hf' : (d.filename == "") = false := by simp [hf]
  have ht' : (d.type == "") = false := by simp [ht]
  unfold exhibitStep
  rw [hf', ht']
  repeat' split
  all_goals first
    | (refine ⟨_, ?_, ?_, rfl⟩ <;> simp [rowOk, skipRow])
    | simp_all

theorem processDocsLoop_inventory (deep : Bool) (maxPerFiling maxTotalBytes : ℕ)
    (download : ExhibitDoc → Option ℕ) (docs : List ExhibitDoc) :
    ∀ st : ExState, (∀ d ∈ docs, d.filename ≠ "" ∧ d.type ≠ "") →
      ((processDocsLoop deep maxPerFiling maxTotalBytes download st docs).inventory.map
          (fun r => r.doc) =
        st.inventory.map (fun r => r.doc) ++ docs.map some) ∧
      ∀ r ∈ (processDocsLoop deep maxPerFiling maxTotalBytes download st docs).inventory,
        r ∈ st.inventory ∨ rowOk r := by
  induction docs with
  | nil => exact fun st h => ⟨by simp [processDocsLoop], fun r hr => Or.inl hr⟩
  | cons d ds ih =>
    intro st h
    obtain ⟨row, hok, hdoc, heq⟩ := exhibitStep_inventory_append deep maxPerFiling
      maxTotalBytes download st d (h d (List.mem_cons_self _ _)).1
      (h d (List.mem_cons_self _ _)).2
    have hds : ∀ x ∈ ds, x.filename ≠ "" ∧ x.type ≠ "" :=
      fun x hx => h x (List.mem_cons_of_mem _ hx)
    have hstep : processDocsLoop deep maxPerFiling maxTotalBytes download st (d :: ds) =
        processDocsLoop deep maxPerFiling maxTotalBytes download
          (exhibitStep deep maxPerFiling maxTotalBytes download st d) ds := rfl
    obtain ⟨ihmap, ihmem⟩ :=
      ih (exhibitStep deep maxPerFiling maxTotalBytes download st d) hds
    constructor
    · rw [hstep, ihmap, heq]
      simp [hdoc]
    · intro r hr
      rw [hstep] at hr
      rcases ihmem r hr with hin | hok2
      · rw [heq] at hin
        rcases List.mem_append.mp hin with h1 | h2
        · exact Or.inl h1
        · rw [List.mem_singleton.mp h2]
          exact Or.inr hok
      · exact Or.inr hok2

theorem countP_doc_of_map {inv : List InvRow} {l : List (Option ExhibitDoc)}
    (h : inv.map (fun r => r.doc) = l) (d : ExhibitDoc) :
    inv.countP (fun r => decide (r.doc = some d)) =
      l.countP fun o => decide (o = some d) := by
  subst h
  rw [List.countP_map]
  apply List.countP_congr
  intro r _
  simp [Function.comp]

theorem processFilingDocs_inventory (deep includeExhibits : Bool)
    (maxPerFiling maxTotalBytes : ℕ) (download : ExhibitDoc → Option ℕ)
    (bytesUsed0 : ℕ) (docs : List ExhibitDoc)
    (hfields : ∀ d ∈ docs, d.filename ≠ "" ∧ d.type ≠ "") :
    (∀ d : ExhibitDoc,
      ((processFilingDocs deep includeExhibits maxPerFiling maxTotalBytes download
          bytesUsed0 docs).inventory.countP fun r => decide (r.doc = some d)) =
        docs.countP fun x => decide (x = d)) ∧
    ∀ r ∈ (processFilingDocs deep includeExhibits maxPerFiling maxTotalBytes download
        bytesUsed0 docs).inventory, rowOk r := by
  have hsorted : ∀ x ∈ sortScored docs, x.filename ≠ "" ∧ x.type ≠ "" := fun x hx =>
    hfields x ((List.mergeSort_perm docs triageLe).mem_iff.mp hx)
  cases includeExhibits with
  | false =>
    cases hemp : docs.isEmpty with
    | true =>
      obtain rfl := List.isEmpty_iff.mp hemp
      constructor
      · intro d
        simp [processFilingDocs]
      · intro r hr
        simp [processFilingDocs] at hr
        simp [hr, rowOk]
    | false =>
      constructor
      · intro d
        simp only [processFilingDocs, hemp, Bool.not_false, if_true,
          Bool.false_eq_true, if_false]
        rw [List.nil_append, List.countP_map]
        apply List.countP_congr
        intro x _
        simp [Function.comp]
      · intro r hr
        simp only [processFilingDocs, hemp, Bool.not_false, if_true,
          Bool.false_eq_true, if_false, List.nil_append] at hr
        obtain ⟨x, -, rfl⟩ := List.mem_map.mp hr
        simp [rowOk]
  | true =>
    cases hemp : docs.isEmpty with
    | true =>
      obtain rfl := List.isEmpty_iff.mp hemp
      constructor
      · intro d
        simp [processFilingDocs, processDocsLoop, sortScored]
      · intro r hr
        simp [processFilingDocs, processDocsLoop, sortScored] at hr
        simp [hr, rowOk]
    | false =>
      obtain ⟨hmap, hmem⟩ := processDocsLoop_inventory deep maxPerFiling maxTotalBytes
        download (sortScored docs) (⟨bytesUsed0, 0, [], []⟩ : ExState) hsorted
      simp only [List.map_nil, List.nil_append] at hmap
      constructor
      · intro d
        simp only [processFilingDocs, hemp, Bool.not_true, Bool.false_eq_true, if_false]
        have hc := countP_doc_of_map hmap d
        rw [List.countP_map] at hc
        rw [hc]
        unfold sortScored
        rw [(List.mergeSort_perm docs triageLe).countP_eq]
        apply List.countP_congr
        intro x _
        simp [Function.comp]
      · intro r hr
        simp only [processFilingDocs, hemp, Bool.not_true, Bool.false_eq_true,
          if_false] at hr
        rcases hmem r hr with h1 | h2
        · simp at h1
        · exact h2

/-- C6: for a filing whose index document was retrieved and parsed into
rows, every `ExhibitDoc` enumerated from those rows appears exactly once
(counted with multiplicity) among the filing's `DOCS_INVENTORY.csv` rows,
every row is tagged DOWNLOADED or SKIPPED, and every SKIPPED row carries a
non-empty reason — no enumerated exhibit row is silently dropped, in any
mode and under any download outcomes. -/
theorem docs_inventory_audit_complete (deep includeExhibits : Bool)
    (maxPerFiling maxTotalBytes : ℕ) (download : ExhibitDoc → Option ℕ)
    (bytesUsed0 : ℕ) (rows : List IndexRow) :
    (∀ d : ExhibitDoc,
      ((processFilingDocs deep includeExhibits maxPerFiling maxTotalBytes download
          bytesUsed0 (getDocsFromIndexHtml rows)).inventory.countP
            fun r => decide (r.doc = some d)) =
        (getDocsFromIndexHtml rows).countP fun x => decide (x = d)) ∧
    ∀ r ∈ (processFilingDocs deep includeExhibits maxPerFiling maxTotalBytes download
        bytesUsed0 (getDocsFromIndexHtml rows)).inventory,
      (r.status = "DOWNLOADED" ∨ r.status = "SKIPPED") ∧
        (r.status = "SKIPPED" → r.reason ≠ "") := by
  obtain ⟨h1, h2⟩ := processFilingDocs_inventory deep includeExhibits maxPerFiling
    maxTotalBytes download bytesUsed0 (getDocsFromIndexHtml rows)
    (getDocs_fields_nonempty rows)
  exact ⟨h1, fun r hr => h2 r hr⟩
/-- Witness for C6: a one-row index whose single exhibit appears exactly
once in the inventory. -/
theorem docs_inventory_audit_complete_witness :
    ((processFilingDocs false true 25 100 (fun _ => some 10) 0
        (getDocsFromIndexHtml [⟨"x/a.htm", ["1", "d", "doc", "EX-10.1", "10"]⟩])).inventory.countP
          fun r => decide (r.doc = some ⟨"1", "d", "EX-10.1", "a.htm", "10"⟩)) =
      (getDocsFromIndexHtml [⟨"x/a.htm", ["1", "d", "doc", "EX-10.1", "10"]⟩]).countP
        fun x => decide (x = ⟨"1", "d", "EX-10.1", "a.htm", "10"⟩) :=
  (docs_inventory_audit_complete false true 25 100 (fun _ => some 10) 0
    [⟨"x/a.htm", ["1", "d", "doc", "EX-10.1", "10"]⟩]).1
    ⟨"1", "d", "EX-10.1", "a.htm", "10"⟩

/-! ### Query-parameter validation (C9) -/

theorem checkNumericParam_eq_ok_iff {p : Option (Option ℚ)} {dflt lo hi : ℚ}
    {nm rm : String} {v : ℚ} :
    checkNumericParam p dflt lo hi nm rm = .ok v ↔
      (((p = none ∧ v = dflt) ∨ p = some (some v)) ∧ lo ≤ v ∧ v ≤ hi) := by
  rcases p with _ | (_ | w)
  · simp only [checkNumericParam]
    split_ifs with h
    · constructor
      · intro hh
        exact absurd hh (by simp)
      · rintro ⟨⟨-, rfl⟩ | h1, h2, h3⟩
        · rcases h with h | h <;> linarith
        · simp at h1
    · push_neg at h
      constructor
      · intro hh
        obtain rfl : dflt = v := by simpa using hh
        exact ⟨Or.inl (by simp), h.1, h.2⟩
      · rintro ⟨⟨-, rfl⟩ | h1, -, -⟩
        · rfl
        · simp at h1
  · simp only [checkNumericParam]
    constructor
    · intro hh
      exact absurd hh (by simp)
    · rintro ⟨⟨h1, -⟩ | h1, -, -⟩ <;> simp at h1
  · simp only [checkNumericParam]
    split_ifs with h
    · constructor
      · intro hh
        exact absurd hh (by simp)
      · rintro ⟨⟨h1, -⟩ | h1, h2, h3⟩
        · simp at h1
        · obtain rfl : w = v := by simpa using h1
          rcases h with h | h <;> linarith
    · push_neg at h
      constructor
      · intro hh
        obtain rfl : w = v := by simpa using hh
        exact ⟨Or.inr rfl, h.1, h.2⟩
      · rintro ⟨⟨h1, -⟩ | h1, -, -⟩
        · simp at h1
        · obtain rfl : w = v := by simpa using h1
          rfl

theorem checkNumericParam_bad {p : Option (Option ℚ)} (dflt lo hi : ℚ) (nm rm : String)
    (hbad : numericParamBad p lo hi) :
    ∃ msg, checkNumericParam p dflt lo hi nm rm = .error msg := by
  rcases hbad with rfl | ⟨v, rfl, hr⟩
  · exact ⟨nm, rfl⟩
  · refine ⟨rm, ?_⟩
    simp only [checkNumericParam]
    rw [if_pos hr]

/-- C9: a request whose `daysBack`, `maxEx` or `maxMb` parameter is
non-numeric (`NaN`) or outside its documented range (30–730, 1–100, 5–500)
is answered with a 400 client-error message, and when every parameter is
valid the supplied (or defaulted) values are used exactly as given — no
silent clamping. -/
theorem params_rejected_or_used_exactly (pDays pMaxEx pMaxMb : Option (Option ℚ)) :
    ((numericParamBad pDays 30 730 ∨ numericParamBad pMaxEx 1 100 ∨
        numericParamBad pMaxMb 5 500) →
      ∃ msg, validateParams pDays pMaxEx pMaxMb = ParamCheck.clientError msg) ∧
    ∀ d e m, numericParamVal pDays 365 30 730 d → numericParamVal pMaxEx 25 1 100 e →
      numericParamVal pMaxMb 75 5 500 m →
      validateParams pDays pMaxEx pMaxMb = ParamCheck.ok d e m := by
  constructor
  · rintro (hbad | hbad | hbad)
    · obtain ⟨msg, hmsg⟩ := checkNumericParam_bad 365 30 730
        "Invalid daysBack parameter (must be a number)" "daysBack out of range (30-730)" hbad
      exact ⟨msg, by simp only [validateParams, hmsg]⟩
    · cases hc : checkNumericParam pDays 365 30 730
          "Invalid daysBack parameter (must be a number)" "daysBack out of range (30-730)" with
      | error msg => exact ⟨msg, by simp only [validateParams, hc]⟩
      | ok dv =>
        obtain ⟨msg, hmsg⟩ := checkNumericParam_bad 25 1 100
          "Invalid maxEx parameter (must be a number)" "maxEx out of range (1-100)" hbad
        exact ⟨msg, by simp only [validateParams, hc, hmsg]⟩
    · cases hc : checkNumericParam pDays 365 30 730
          "Invalid daysBack parameter (must be a number)" "daysBack out of range (30-730)" with
      | error msg => exact ⟨msg, by simp only [validateParams, hc]⟩
      | ok dv =>
        cases hc2 : checkNumericParam pMaxEx 25 1 100
            "Invalid maxEx parameter (must be a number)" "maxEx out of range (1-100)" with
        | error msg => exact ⟨msg, by simp only [validateParams, hc, hc2]⟩
        | ok ev =>
          obtain ⟨msg, hmsg⟩ := checkNumericParam_bad 75 5 500
            "Invalid maxMb parameter (must be a number)" "maxMb out of range (5-500)" hbad
          exact ⟨msg, by simp only [validateParams, hc, hc2, hmsg]⟩
  · intro d e m hd he hm
    have h1 : checkNumericParam pDays 365 30 730
        "Invalid daysBack parameter (must be a number)" "daysBack out of range (30-730)" =
          .ok d := checkNumericParam_eq_ok_iff.mpr hd
    have h2 : checkNumericParam pMaxEx 25 1 100
        "Invalid maxEx parameter (must be a number)" "maxEx out of range (1-100)" =
          .ok e := checkNumericParam_eq_ok_iff.mpr he
    have h3 : checkNumericParam pMaxMb 75 5 500
        "Invalid maxMb parameter (must be a number)" "maxMb out of range (5-500)" =
          .ok m := checkNumericParam_eq_ok_iff.mpr hm
    simp only [validateParams, h1, h2, h3]

/-- Witness for C9: a fractional but in-range `daysBack` of 100.5 together
with a defaulted `maxEx` and a boundary `maxMb` of 500 are used exactly as
given. -/
theorem params_rejected_or_used_exactly_witness :
    validateParams (some (some (100.5 : ℚ))) none (some (some 500)) =
      ParamCheck.ok 100.5 25 500 :=
  (params_rejected_or_used_exactly (some (some (100.5 : ℚ))) none (some (some 500))).2
    100.5 25 500
    ⟨Or.inr rfl, by norm_num, by norm_num⟩
    ⟨Or.inl ⟨rfl, rfl⟩, by norm_num, by norm_num⟩
    ⟨Or.inr rfl, by norm_num, by norm_num⟩

/-! ### CSV round-trip (C10) -/

theorem csvGo_comma (cur rest : List Char) (acc : List String) :
    csvGo false cur (',' :: rest) acc = csvGo false [] rest (cur.reverse.asString :: acc) := by
  simp [csvGo]

theorem csvGo_openQuote (rest : List Char) (acc : List String) :
    csvGo false [] ('"' :: rest) acc = csvGo true [] rest acc := by
  simp [csvGo]

theorem csvGo_plain {c : Char} (hc : c ≠ ',') (hq : c ≠ '"') (cur rest : List Char)
    (acc : List String) :
    csvGo false cur (c :: rest) acc = csvGo false (c :: cur) rest acc := by
  simp [csvGo, hc, hq]

theorem csvGo_qq (cur rest : List Char) (acc : List String) :
    csvGo true cur ('"' :: '"' :: rest) acc = csvGo true ('"' :: cur) rest acc := by
  simp [csvGo]

theorem csvGo_closeQuote {rest : List Char} (h : rest = [] ∨ ∃ t, rest = ',' :: t)
    (cur : List Char) (acc : List String) :
    csvGo true cur ('"' :: rest) acc = csvGo false cur rest acc := by
  rcases h with rfl | ⟨t, rfl⟩ <;> simp [csvGo]

theorem csvGo_qplain {c : Char} (hq : c ≠ '"') (cur rest : List Char) (acc : List String) :
    csvGo true cur (c :: rest) acc = csvGo true (c :: cur) rest acc := by
  simp [csvGo, hq]

theorem csvGo_unquoted_run (f : List Char) (hf : ∀ c ∈ f, c ≠ ',' ∧ c ≠ '"') :
    ∀ cur rest acc, csvGo false cur (f ++ rest) acc = csvGo false (f.reverse ++ cur) rest acc := by
  induction f with
  | nil => intro cur rest acc; simp
  | cons c f' ih =>
    intro cur rest acc
    have hc := hf c (List.mem_cons_self _ _)
    rw [List.cons_append, csvGo_plain hc.1 hc.2,
      ih (fun x hx => hf x (List.mem_cons_of_mem _ hx))]
    simp

theorem csvGo_quoted_run (f : List Char) :
    ∀ cur rest acc, csvGo true cur (escapeQuotes f ++ '"' :: rest) acc =
      csvGo true (f.reverse ++ cur) ('"' :: rest) acc := by
  induction f with
  | nil => intro cur rest acc; simp [escapeQuotes]
  | cons c f' ih =>
    intro cur rest acc
    by_cases hc : c = '"'
    · subst hc
      rw [show escapeQuotes ('"' :: f') = '"' :: '"' :: escapeQuotes f' from by
        simp [escapeQuotes], List.cons_append, List.cons_append, csvGo_qq, ih]
      simp
    · rw [show escapeQuotes (c :: f') = c :: escapeQuotes f' from by
        simp [escapeQuotes, hc], List.cons_append, csvGo_qplain hc, ih]
      simp

theorem csvGo_cell (s : String) (rest : List Char) (acc : List String)
    (hrest : rest = [] ∨ ∃ t, rest = ',' :: t) :
    csvGo false [] (encodeCell s ++ rest) acc = csvGo false s.toList.reverse rest acc := by
  unfold encodeCell
  split_ifs with h
  · have hshape : ('"' :: (escapeQuotes s.toList ++ ['"'])) ++ rest =
        '"' :: (escapeQuotes s.toList ++ '"' :: rest) := by
      simp
    rw [hshape, csvGo_openQuote, csvGo_quoted_run, List.append_nil,
      csvGo_closeQuote hrest]
  · have hfalse : needsQuote s.toList = false := by
      simpa using h
    have hall : ∀ c ∈ s.toList, c ≠ ',' ∧ c ≠ '"' := by
      intro c hcmem
      have h2 := List.any_eq_false.mp hfalse c hcmem
      simp only [Bool.or_eq_true, beq_iff_eq] at h2
      push_neg at h2
      exact ⟨h2.1.2, h2.1.1⟩
    rw [csvGo_unquoted_run s.toList hall, List.append_nil]

theorem csvGo_joinComma_aux (c : String) (cs : List String) :
    ∀ acc, csvGo false [] (joinComma ((c :: cs).map encodeCell)) acc =
      acc.reverse ++ (c :: cs) := by
  induction cs generalizing c with
  | nil =>
    intro acc
    have h1 := csvGo_cell c [] acc (Or.inl rfl)
    rw [List.append_nil] at h1
    rw [show joinComma ([c].map encodeCell) = encodeCell c from rfl, h1]
    show (c.toList.reverse.reverse.asString :: acc).reverse = acc.reverse ++ [c]
    rw [List.reverse_reverse, show c.toList.asString = c from rfl, List.reverse_cons]
  | cons c2 cs2 ih =>
    intro acc
    have hjoin : joinComma ((c :: c2 :: cs2).map encodeCell) =
        encodeCell c ++ ',' :: joinComma ((c2 :: cs2).map encodeCell) := by
      simp [joinComma]
    rw [hjoin, csvGo_cell c _ acc (Or.inr ⟨_, rfl⟩), csvGo_comma]
    have hself : c.toList.reverse.reverse.asString = c := by
      rw [List.reverse_reverse]
      exact rfl
    rw [hself, ih c2 (c :: acc)]
    simp

/-- C10 counterexample: the empty cell list.  `toCsvLine []` and
`toCsvLine [""]` both render as the empty line, so no CSV field parser can
recover both; under standard parsing the empty line reads back as one
empty field, not as zero cells. -/
theorem toCsvLine_roundtrip_fails_on_empty :
    toCsvLine [] = toCsvLine [""] ∧ ([] : List String) ≠ [""] ∧
      parseCsvLine (toCsvLine []) = [""] :=
  ⟨rfl, by simp, rfl⟩

/-- C10 amended: for every *non-empty* list of (stringified) cells,
standard CSV field parsing of the line produced by `toCsvLine` recovers
exactly the original cell strings. -/
theorem parseCsvLine_toCsvLine_roundtrip (cells : List String) (hne : cells ≠ []) :
    parseCsvLine (toCsvLine cells) = cells := by
  obtain ⟨c, cs, rfl⟩ := List.exists_cons_of_ne_nil hne
  show csvGo false [] ((joinComma ((c :: cs).map encodeCell)).asString.toList) [] = c :: cs
  rw [show ((joinComma ((c :: cs).map encodeCell)).asString.toList) =
    joinComma ((c :: cs).map encodeCell) from rfl]
  simpa using csvGo_joinComma_aux c cs []

/-- Witness for C10's amended statement: a concrete line with a comma, a
quote and a plain cell round-trips. -/
theorem parseCsvLine_toCsvLine_roundtrip_witness :
    parseCsvLine (toCsvLine ["a,b", "c\"d", "e"]) = ["a,b", "c\"d", "e"] :=
  parseCsvLine_toCsvLine_roundtrip ["a,b", "c\"d", "e"] (by decide)

end StockDocs
